import Mathlib

/-!
Shallow embedding of `benchgen.py`, a testbench generator for SystemVerilog
modules.  Each definition below mirrors one Python function of the source;
machine integers are modelled as `Int` (Python integers are unbounded), and
functions that can raise an exception in Python return `Option`.
-/

namespace Benchgen

/-- A parameter record of the input document: `{name, type/io_type, idx_hi, idx_lo}`.
The source reads the direction under the key `io_type` in the codegen
functions; we use a single `io_type` field for the direction. -/
structure Field where
  name : String
  io_type : String
  idx_hi : Int
  idx_lo : Int
deriving DecidableEq

/-- Exact integer ceiling division: `ceil_div x base = ⌈x / base⌉` for `base > 0`.
Used to model the Python expression `math.ceil(float(x) / base)`, whose float arithmetic is
exact on the integer ranges involved. -/
def ceil_div (x base : Int) : Int := -(Int.fdiv (-x) base)

/-- `round_to_8(x, base)` from the source: `int(base * math.ceil(float(x) / base))`.
The Python parameter `base` defaults to `8`, but every call in the program
passes `base=4`; we take `base` explicitly. -/
def round_to_8 (x base : Int) : Int := base * ceil_div x base

/-- `compute_field_bit_width(idx_hi, idx_lo)` from the source: `(idx_hi+1) - idx_lo`. -/
def compute_field_bit_width (idx_hi idx_lo : Int) : Int := (idx_hi + 1) - idx_lo

/-- `compute_field_bit_width_hex(idx_hi, idx_lo)` from the source:
`round_to_8(compute_field_bit_width(idx_hi, idx_lo), base=4) // 4`
(Python `//` is floor division, i.e. `Int.fdiv`). -/
def compute_field_bit_width_hex (idx_hi idx_lo : Int) : Int :=
  Int.fdiv (round_to_8 (compute_field_bit_width idx_hi idx_lo) 4) 4

/-- `generate_vector_format_str(field_lengths_hex)` from the source: starts from
`"%1h"` and appends `"_%0{length}h"` for each hex length, in order. -/
def generate_vector_format_str (field_lengths_hex : List Int) : String :=
  field_lengths_hex.foldl
    (fun out length => out ++ "_%0" ++ toString length ++ "h") "%1h"

/-- The loop body of `generate_bit_slice_indices`: walks the hex-bit lengths and
the exact `(idx_hi, idx_lo)` pairs in lockstep (the Python `zip` stops at the
shorter list), carrying the cursor `top` downwards. -/
def bitSliceAux : List Int → List (Int × Int) → Int → List (Int × Int)
  | hex_length :: hs, (idx_hi, idx_lo) :: ts, top =>
      let width := compute_field_bit_width idx_hi idx_lo
      let out_lo := top - hex_length
      let out_hi := (out_lo + width) - 1
      (out_hi, out_lo) :: bitSliceAux hs ts (top - hex_length)
  | _, _, _ => []

/-- `generate_bit_slice_indices(field_lengths_hex, exact_bit_width_tuples)` from
the source: multiplies the hex lengths by 4, initialises the cursor `top` with
their sum and emits one `(out_hi, out_lo)` pair per field. -/
def generate_bit_slice_indices (field_lengths_hex : List Int)
    (exact_bit_width_tuples : List (Int × Int)) : List (Int × Int) :=
  let field_lengths_hexbits := field_lengths_hex.map (· * 4)
  bitSliceAux field_lengths_hexbits exact_bit_width_tuples field_lengths_hexbits.sum

/-- The final value of the cursor `top` of `generate_bit_slice_indices` after
every field has been processed (the loop subtracts each hex-bit length from a
cursor that starts at their sum).  Modelled with a full-length tuple list so
every hex length is consumed. -/
def bit_slice_final_top (field_lengths_hex : List Int) : Int :=
  let field_lengths_hexbits := field_lengths_hex.map (· * 4)
  field_lengths_hexbits.foldl (fun top hex_length => top - hex_length)
    field_lengths_hexbits.sum

/-- `" " * n` in Python. -/
def spaces (n : Nat) : String := String.mk (List.replicate n ' ')

/-- The Python expression `"{:N}".format(s)` for a string `s`: left-justify, pad with
spaces to width `N`. -/
def ljust (s : String) (width : Nat) : String :=
  s ++ spaces (width - s.length)

/-- `codegen_format_params(slice_index_tuples)` from the source: one
19-space-indented `vec[hi:lo]` per slice, all but the last followed by a
comma, lines separated by newlines. -/
def codegen_format_params (slice_index_tuples : List (Int × Int)) : String :=
  (slice_index_tuples.foldl
    (fun (acc : String × Nat) p =>
      let out := if acc.2 > 0 then acc.1 ++ "\n" else acc.1
      let out := out ++ spaces 19 ++ "vec[" ++ toString p.1 ++ ":" ++ toString p.2 ++ "]"
      let i := acc.2 + 1
      let out := if i < slice_index_tuples.length then out ++ "," else out
      (out, i))
    ("", 0)).1

/-- One `logic [hi:lo] name;` declaration line, 4-space indented. -/
def decl_line (v : Field) (name : String) : String :=
  spaces 4 ++ "logic [" ++ toString v.idx_hi ++ ":" ++ toString v.idx_lo ++ "] "
    ++ name ++ ";" ++ "\n"

/-- `codegen_input_decls(variables_list)` from the source: inputs, outputs and
expected-output shadow declarations, grouped under three comment headers. -/
def codegen_input_decls (variables_list : List Field) : String :=
  let out := "" ++ "\n    // Inputs.\n"
  let out := variables_list.foldl
    (fun o v => if v.io_type == "input" then o ++ decl_line v v.name else o) out
  let out := out ++ "\n    // Outputs.\n"
  let out := variables_list.foldl
    (fun o v => if v.io_type == "output" then o ++ decl_line v v.name else o) out
  let out := out ++ "\n    // Expected Outputs.\n"
  variables_list.foldl
    (fun o v => if v.io_type == "output" then o ++ decl_line v (v.name ++ "_e") else o) out

/-- `codegen_initial_begin_decls(variables_list)` from the source: zero
assignments for the inputs, names left-justified to the longest field name.
the Python `max` raises `ValueError` on an empty list, hence `Option`. -/
def codegen_initial_begin_decls (variables_list : List Field) : Option String :=
  match (variables_list.map (fun v => v.name.length)).max? with
  | none => none
  | some max_name_length =>
      some (variables_list.foldl
        (fun out v =>
          if v.io_type == "input" then
            out ++ spaces 8 ++ ljust v.name max_name_length ++ " = 0;" ++ "\n"
          else out) "")

/-- `codegen_dut_stimulate_block(variables_list, bit_slices_list)` from the
source: one extraction assignment per (field, slice) pair — inputs get
`name = current[hi:lo];`, outputs get `name_e = current[hi:lo];`, all names
left-justified to the longest name plus two.  `Option` for the empty-list
`max` as above. -/
def codegen_dut_stimulate_block (variables_list : List Field)
    (bit_slices_list : List (Int × Int)) : Option String :=
  match (variables_list.map (fun v => v.name.length)).max? with
  | none => none
  | some m =>
      let max_name_length := m + 2
      some ((variables_list.zip bit_slices_list).foldl
        (fun out vp =>
          let v := vp.1
          let out := out ++ spaces 12
          let out :=
            if v.io_type == "input" then
              out ++ ljust v.name max_name_length ++ " = current["
                ++ toString vp.2.1 ++ ":" ++ toString vp.2.2 ++ "];"
            else if v.io_type == "output" then
              out ++ ljust (v.name ++ "_e") max_name_length ++ " = current["
                ++ toString vp.2.1 ++ ":" ++ toString vp.2.2 ++ "];"
            else out
          out ++ "\n") "")

/-- `codegen_output_check_expr(variables_list)` from the source.  Note the
exact control flow: once at least one disjunct has been emitted (`i > 0`),
the separator `" || "` is appended for EVERY subsequent field, input fields
included, before the `io_type == "output"` test. -/
def codegen_output_check_expr (variables_list : List Field) : String :=
  (variables_list.foldl
    (fun (acc : String × Nat) v =>
      let out := if acc.2 > 0 then acc.1 ++ " || " else acc.1
      if v.io_type == "output" then
        (out ++ v.name ++ " != " ++ v.name ++ "_e", acc.2 + 1)
      else
        (out, acc.2))
    ("", 0)).1

/-- `template_bench.format(...)` from the source: the fixed testbench skeleton
with the eleven placeholders substituted.  Apostrophes of the original text are
written `\x27`. -/
def render_template (module_name vec_format_str vec_format_params : String)
    (vector_hi_idx vector_lo_idx : Int)
    (input_decls initial_begin_inputs dut_inputs enable_stimulate_block
     dut_stimulate_block output_check_expr : String) : String :=
  "// Testbench for module \x27" ++ module_name ++ "\x27.\n"
  ++ "// WARNING: This file is auto-generated. IF EDITING MANUALLY, YOUR CHANGES MAY BE OVERWRITTEN.\n"
  ++ "// To generate a test bench like this one, see the \"Benchgen\" project on Github.\n"
  ++ "//   https://github.com/philipaconrad/benchgen\n"
  ++ "\n"
  ++ "module testbench_" ++ module_name ++ ";\n"
  ++ "\n"
  ++ "    // Function for displaying a test vector like it appears in the source.\n"
  ++ "    // Cite: https://www.verificationguide.com/p/systemverilog-functions.html (function syntax)\n"
  ++ "    function void display_vector(input [" ++ toString vector_hi_idx ++ ":"
    ++ toString vector_lo_idx ++ "] vec);\n"
  ++ "        begin\n"
  ++ "            // Print bit slices back with the \x27_\x27 formatting.\n"
  ++ "            // Cite: https://electronics.stackexchange.com/a/50828\n"
  ++ "            $write(\"" ++ vec_format_str ++ "\",\n"
  ++ vec_format_params ++ ");\n"
  ++ "        end\n"
  ++ "    endfunction\n"
  ++ "\n"
  ++ "    // Input declarations.\n"
  ++ input_decls ++ "\n"
  ++ "\n"
  ++ "    // Testbench variables.\n"
  ++ "    logic [" ++ toString vector_hi_idx ++ ":" ++ toString vector_lo_idx
    ++ "] vectors [999:0]; // 1e3 test vectors\n"
  ++ "    logic [" ++ toString vector_hi_idx ++ ":" ++ toString vector_lo_idx
    ++ "] current;         // Current test vector\n"
  ++ "    logic [31:0] i;                // Vector subscript\n"
  ++ "    logic [3:0] enable;            // Test vector enable\n"
  ++ "    logic [31:0] error;            // Error counter\n"
  ++ "\n"
  ++ "    initial begin\n"
  ++ initial_begin_inputs ++ "\n"
  ++ "        i     = 0;\n"
  ++ "        error = 0;\n"
  ++ "    end\n"
  ++ "\n"
  ++ "    // Instantiate device under test.\n"
  ++ "    " ++ module_name ++ " dut (" ++ dut_inputs ++ ");\n"
  ++ "\n"
  ++ "    initial begin\n"
  ++ "        // Load test vectors from disk.\n"
  ++ "        $readmemh(\"vectors_" ++ module_name ++ ".dat\", vectors);\n"
  ++ "\n"
  ++ "        for (i = 0; i < 1000; i = i + 1) begin\n"
  ++ "            current = vectors[i];\n"
  ++ "\n"
  ++ "            // Pull out enable, ... signals to stimulate the DUT.\n"
  ++ enable_stimulate_block ++ "\n"
  ++ dut_stimulate_block ++ "\n"
  ++ "\n"
  ++ "            // Check to see if this test vector is used or not.\n"
  ++ "            // Vectors in-use always start with 1111.\n"
  ++ "            if (enable === 4\x27b1111) begin\n"
  ++ "                // Give the ALU time to respond.\n"
  ++ "                #10;\n"
  ++ "\n"
  ++ "                // Check the result.\n"
  ++ "                if (" ++ output_check_expr ++ ") begin\n"
  ++ "                    error += 1;\n"
  ++ "                    $write(\"Vector failed at index: %4d  \", i);\n"
  ++ "                    display_vector(current);\n"
  ++ "                    $display(\"\"); // Newline at the end.\n"
  ++ "                end\n"
  ++ "            end\n"
  ++ "            if (enable === 4\x27bx) begin\n"
  ++ "                $display(\"%4d tests completed with %4d errors\", i, error);\n"
  ++ "                $stop();\n"
  ++ "            end\n"
  ++ "        end\n"
  ++ "\n"
  ++ "        // Tell the simulator we\x27re done.\n"
  ++ "        $stop();\n"
  ++ "    end\n"
  ++ "\n"
  ++ "endmodule"

/-- The parsed input document (the `__main__` code reads `module_name` and
`parameters` out of the JSON object). -/
structure ModuleSpec where
  module_name : String
  parameters : List Field
deriving DecidableEq

/-- The `__main__` pipeline of the source, from the parsed document to the
printed text (`print` appends a final newline).  Returns `none` exactly where
the Python raises before printing: `codegen_initial_begin_decls` and
`codegen_dut_stimulate_block` take `max` of an empty sequence when the
parameter list is empty.  The unused variables `inputs`, `input_names`,
`outputs`, `output_names` of the source are pure and dead, and are omitted. -/
def benchgen_main (j : ModuleSpec) : Option String :=
  let parameters := j.parameters
  let parameter_widths := parameters.map (fun x => (x.idx_hi, x.idx_lo))
  let parameter_hex_widths :=
    parameter_widths.map (fun p => compute_field_bit_width_hex p.1 p.2)
  let parameter_hex_bit_widths := parameter_hex_widths.map (· * 4)
  let vector_hi_idx := (parameter_hex_bit_widths.sum + 4) - 1
  let vector_lo_idx : Int := 0
  let vec_format_str := generate_vector_format_str parameter_hex_widths
  let vec_bit_slices := generate_bit_slice_indices parameter_hex_widths parameter_widths
  match codegen_initial_begin_decls parameters,
        codegen_dut_stimulate_block parameters vec_bit_slices with
  | some initial_begin_inputs, some dut_stim =>
      some (render_template j.module_name vec_format_str
        (codegen_format_params ((vector_hi_idx, vector_hi_idx - 3) :: vec_bit_slices))
        vector_hi_idx vector_lo_idx
        (codegen_input_decls parameters)
        initial_begin_inputs
        (String.intercalate ", " (parameters.map (fun v => v.name)))
        ("            enable = current[" ++ toString vector_hi_idx ++ ":"
          ++ toString (vector_hi_idx - 3) ++ "];\n")
        dut_stim
        (codegen_output_check_expr parameters) ++ "\n")
  | _, _ => none

end Benchgen

namespace Benchgen

-- Concrete scenario of the spec: module `adder`.
/-- The parameter list of the `adder` scenario: `a(input,7,0)`, `b(input,7,0)`,
`sum(output,8,0)`. -/
def adderFields : List Field :=
  [⟨"a", "input", 7, 0⟩, ⟨"b", "input", 7, 0⟩, ⟨"sum", "output", 8, 0⟩]

/-- Hex widths of a parameter list, as computed in `__main__`
(`parameter_hex_widths`). -/
def fieldHexWidths (fs : List Field) : List Int :=
  fs.map (fun x => compute_field_bit_width_hex x.idx_hi x.idx_lo)

/-- `(idx_hi, idx_lo)` pairs of a parameter list, as computed in `__main__`
(`parameter_widths`). -/
def fieldWidthTuples (fs : List Field) : List (Int × Int) :=
  fs.map (fun x => (x.idx_hi, x.idx_lo))

/-- Nibble-aligned chunk sizes in bits, as computed in `__main__`
(`parameter_hex_bit_widths`). -/
def fieldHexBits (fs : List Field) : List Int :=
  (fieldHexWidths fs).map (· * 4)

/-- `vec_hi_idx` from `__main__`: `(sum(parameter_hex_bit_widths) + 4) - 1`. -/
def vec_hi_idx (fs : List Field) : Int :=
  ((fieldHexBits fs).sum + 4) - 1

/-- The data slices of a parameter list, as computed in `__main__`
(`vec_bit_slices`). -/
def fieldSlices (fs : List Field) : List (Int × Int) :=
  generate_bit_slice_indices (fieldHexWidths fs) (fieldWidthTuples fs)

/-- Spec-side derived value: the `chunk_bits = nibble_width * 4` of a field. -/
def chunk_bits (f : Field) : Int :=
  compute_field_bit_width_hex f.idx_hi f.idx_lo * 4

/-- Spec-side derived value: `total_width = 4 + sum(chunk_bits over all fields)`. -/
def total_width (fs : List Field) : Int :=
  4 + (fs.map chunk_bits).sum

/-- A valid ModuleSpec field list per the data-model invariants of the spec:
non-empty, and every field has `bit_hi >= bit_lo >= 0`. -/
def ValidFields (fs : List Field) : Prop :=
  fs ≠ [] ∧ ∀ f ∈ fs, f.idx_lo ≤ f.idx_hi ∧ 0 ≤ f.idx_lo

instance (fs : List Field) : Decidable (ValidFields fs) := by
  unfold ValidFields; infer_instance

end Benchgen

namespace Benchgen

/-- Default field used by the positional accessors below. -/
def defaultField : Field := ⟨"", "", 0, 0⟩

/-- Data-slice high index of field `i`, as produced by the slice planner. -/
def sliceHiAt (fs : List Field) (i : Nat) : Int := ((fieldSlices fs).getD i (0, 0)).1

/-- Data-slice low index of field `i`, as produced by the slice planner. -/
def sliceLoAt (fs : List Field) (i : Nat) : Int := ((fieldSlices fs).getD i (0, 0)).2

/-- Chunk size in bits of field `i`. -/
def chunkBitsAt (fs : List Field) (i : Nat) : Int := (fieldHexBits fs).getD i 0

/-- Raw bit width of field `i`. -/
def rawWidthAt (fs : List Field) (i : Nat) : Int :=
  compute_field_bit_width (fs.getD i defaultField).idx_hi (fs.getD i defaultField).idx_lo

/-- Sum of the chunk sizes of fields `k, k+1, ...`: the packed-vector position
where the chunk of field `k - 1` begins (its lowest bit). -/
def chunkSuffixSum (fs : List Field) (k : Nat) : Int :=
  ((fieldHexBits fs).drop k).sum

/-- Modelled from the spec: the hex conversion specifiers of the display
format — `%1h` for the enable nibble, then `%0Wh` per field with `W` the hex
digit count of the field, in declaration order. -/
def format_specifiers (ws : List Int) : List String :=
  "%1h" :: ws.map (fun w => "%0" ++ toString w ++ "h")

/-- Modelled from the spec: a format string of the shape `"%1h_%0W1h_%0W2h_..."`
is its list of specifiers joined by underscores. -/
def join_specifiers : List String → String
  | [] => ""
  | [s] => s
  | s :: rest => s ++ "_" ++ join_specifiers rest

/-- An input document with a field whose `idx_hi < idx_lo` (invalid geometry). -/
def badGeometrySpec : ModuleSpec := ⟨"m", [⟨"x", "input", 0, 1⟩]⟩

/-- The `adder` scenario as a full input document. -/
def adderSpec : ModuleSpec := ⟨"adder", adderFields⟩

end Benchgen

namespace Benchgen

lemma ceil_div_bounds (x : Int) : x ≤ 4 * ceil_div x 4 ∧ 4 * ceil_div x 4 < x + 4 := by
  have hq : (4 : Int) * Int.fdiv (-x) 4 + Int.fmod (-x) 4 = -x := Int.fdiv_add_fmod (-x) 4
  have hr0 : 0 ≤ Int.fmod (-x) 4 := Int.fmod_nonneg' (-x) (by norm_num)
  have hr4 : Int.fmod (-x) 4 < 4 := Int.fmod_lt_of_pos (-x) (by norm_num)
  unfold ceil_div
  omega

lemma ceil_div_four_eq_ceil (x : Int) : ceil_div x 4 = ⌈(x : ℚ) / 4⌉ := by
  have h2 : ⌊((-x : Int) : ℚ) / ((4 : Nat) : ℚ)⌋ = (-x) / (4 : Int) :=
    Rat.floor_intCast_div_natCast (-x) 4
  have h1 : ((-x : Int) : ℚ) / ((4 : Nat) : ℚ) = -((x : ℚ) / 4) := by
    push_cast
    ring
  have h3 : ⌈(x : ℚ) / 4⌉ = -⌊-((x : ℚ) / 4)⌋ := by
    rw [← Int.ceil_neg, neg_neg]
  rw [h3, ← h1, h2]
  unfold ceil_div
  rw [Int.fdiv_eq_ediv _ (by norm_num)]

lemma compute_field_bit_width_hex_eq (idx_hi idx_lo : Int) :
    compute_field_bit_width_hex idx_hi idx_lo
      = ceil_div (compute_field_bit_width idx_hi idx_lo) 4 := by
  unfold compute_field_bit_width_hex round_to_8
  exact Int.mul_fdiv_cancel_left _ (by norm_num)

lemma hex_width_pos {idx_hi idx_lo : Int} (h : idx_lo ≤ idx_hi) :
    1 ≤ compute_field_bit_width_hex idx_hi idx_lo := by
  have hb := ceil_div_bounds (compute_field_bit_width idx_hi idx_lo)
  rw [compute_field_bit_width_hex_eq]
  unfold compute_field_bit_width at hb ⊢
  omega

lemma bitSliceAux_length (hs : List Int) (ts : List (Int × Int)) (t : Int) :
    (bitSliceAux hs ts t).length = min hs.length ts.length := by
  induction hs generalizing ts t with
  | nil => cases ts <;> simp [bitSliceAux]
  | cons hx hs ih =>
      cases ts with
      | nil => simp [bitSliceAux]
      | cons p ts =>
          obtain ⟨idx_hi, idx_lo⟩ := p
          simp [bitSliceAux, ih]
          omega

lemma bitSliceAux_getD (hs : List Int) (ts : List (Int × Int)) (t : Int)
    (i : Nat) (h1 : i < hs.length) (h2 : i < ts.length) :
    (bitSliceAux hs ts t).getD i (0, 0) =
      (t - (hs.take (i + 1)).sum
         + compute_field_bit_width (ts.getD i (0, 0)).1 (ts.getD i (0, 0)).2 - 1,
       t - (hs.take (i + 1)).sum) := by
  induction hs generalizing ts t i with
  | nil => simp at h1
  | cons hx hs ih =>
      cases ts with
      | nil => simp at h2
      | cons p ts =>
          obtain ⟨idx_hi, idx_lo⟩ := p
          cases i with
          | zero =>
              simp [bitSliceAux]
          | succ i =>
              simp only [bitSliceAux, List.getD_cons_succ]
              rw [ih ts (t - hx) i (by simpa using h1) (by simpa using h2)]
              simp only [List.take_succ_cons, List.sum_cons, List.getD_cons_succ,
                Prod.mk.injEq]
              constructor <;> ring

lemma fieldHexBits_length (fs : List Field) : (fieldHexBits fs).length = fs.length := by
  simp [fieldHexBits, fieldHexWidths]

lemma fieldSlices_length (fs : List Field) : (fieldSlices fs).length = fs.length := by
  unfold fieldSlices generate_bit_slice_indices
  rw [bitSliceAux_length]
  simp [fieldHexWidths, fieldWidthTuples]

lemma sum_take_eq (l : List Int) (k : Nat) :
    (l.take k).sum = l.sum - (l.drop k).sum := by
  have h := List.take_append_drop k l
  have h2 : ((l.take k) ++ (l.drop k)).sum = l.sum := by rw [h]
  rw [List.sum_append] at h2
  omega

lemma fieldSlices_getD (fs : List Field) (i : Nat) (h : i < fs.length) :
    (fieldSlices fs).getD i (0, 0) =
      (chunkSuffixSum fs (i + 1) + rawWidthAt fs i - 1, chunkSuffixSum fs (i + 1)) := by
  unfold fieldSlices generate_bit_slice_indices
  have hlenHB : ((fieldHexWidths fs).map (· * 4)).length = fs.length := by
    simp [fieldHexWidths]
  have hlenT : (fieldWidthTuples fs).length = fs.length := by
    simp [fieldWidthTuples]
  rw [bitSliceAux_getD _ _ _ i (by omega) (by omega)]
  have htup : ((fieldWidthTuples fs).getD i (0, 0))
      = ((fs.getD i defaultField).idx_hi, (fs.getD i defaultField).idx_lo) := by
    rw [List.getD_eq_getElem _ _ (by omega), List.getD_eq_getElem _ _ (by omega)]
    simp [fieldWidthTuples]
  rw [htup]
  rw [sum_take_eq]
  unfold chunkSuffixSum fieldHexBits rawWidthAt
  simp only [Prod.mk.injEq]
  constructor <;> ring

lemma sliceLoAt_eq (fs : List Field) (i : Nat) (h : i < fs.length) :
    sliceLoAt fs i = chunkSuffixSum fs (i + 1) := by
  unfold sliceLoAt
  rw [fieldSlices_getD fs i h]

lemma sliceHiAt_eq (fs : List Field) (i : Nat) (h : i < fs.length) :
    sliceHiAt fs i = chunkSuffixSum fs (i + 1) + rawWidthAt fs i - 1 := by
  unfold sliceHiAt
  rw [fieldSlices_getD fs i h]

lemma chunkBitsAt_eq (fs : List Field) (i : Nat) (h : i < fs.length) :
    chunkBitsAt fs i
      = compute_field_bit_width_hex (fs.getD i defaultField).idx_hi
          (fs.getD i defaultField).idx_lo * 4 := by
  unfold chunkBitsAt
  rw [List.getD_eq_getElem _ _ (by rw [fieldHexBits_length]; omega)]
  rw [List.getD_eq_getElem _ _ h]
  simp [fieldHexBits, fieldHexWidths]

lemma chunkSuffixSum_succ (fs : List Field) (i : Nat) (h : i < fs.length) :
    chunkSuffixSum fs i = chunkBitsAt fs i + chunkSuffixSum fs (i + 1) := by
  unfold chunkSuffixSum chunkBitsAt
  have hlen : i < (fieldHexBits fs).length := by rw [fieldHexBits_length]; omega
  rw [List.drop_eq_getElem_cons hlen, List.sum_cons, List.getD_eq_getElem _ _ hlen]

lemma chunkSuffixSum_length (fs : List Field) : chunkSuffixSum fs fs.length = 0 := by
  unfold chunkSuffixSum
  rw [← fieldHexBits_length fs]
  simp

lemma chunkSuffixSum_zero (fs : List Field) :
    chunkSuffixSum fs 0 = (fieldHexBits fs).sum := by
  simp [chunkSuffixSum]

lemma fieldHexBits_nonneg (fs : List Field)
    (hv : ∀ f ∈ fs, f.idx_lo ≤ f.idx_hi ∧ 0 ≤ f.idx_lo) :
    ∀ x ∈ fieldHexBits fs, 0 ≤ x := by
  intro x hx
  rcases List.mem_map.1 hx with ⟨w, hw, rfl⟩
  rcases List.mem_map.1 hw with ⟨f, hf, rfl⟩
  have h1 := hex_width_pos (hv f hf).1
  show 0 ≤ compute_field_bit_width_hex f.idx_hi f.idx_lo * 4
  omega

lemma chunkSuffixSum_nonneg (fs : List Field)
    (hv : ∀ f ∈ fs, f.idx_lo ≤ f.idx_hi ∧ 0 ≤ f.idx_lo) (k : Nat) :
    0 ≤ chunkSuffixSum fs k :=
  List.sum_nonneg (fun _ hx => fieldHexBits_nonneg fs hv _ (List.mem_of_mem_drop hx))

lemma chunkSuffixSum_anti (fs : List Field)
    (hv : ∀ f ∈ fs, f.idx_lo ≤ f.idx_hi ∧ 0 ≤ f.idx_lo)
    {k m : Nat} (h : k ≤ m) :
    chunkSuffixSum fs m ≤ chunkSuffixSum fs k := by
  unfold chunkSuffixSum
  have hdd : ((fieldHexBits fs).drop k).drop (m - k) = (fieldHexBits fs).drop m := by
    rw [List.drop_drop]
    congr 1
    omega
  rw [← hdd]
  have hsub := sum_take_eq ((fieldHexBits fs).drop k) (m - k)
  have htk : 0 ≤ (((fieldHexBits fs).drop k).take (m - k)).sum :=
    List.sum_nonneg (fun x hx =>
      fieldHexBits_nonneg fs hv x (List.mem_of_mem_drop (List.mem_of_mem_take hx)))
  omega

lemma total_width_eq (fs : List Field) :
    total_width fs = 4 + (fieldHexBits fs).sum := by
  unfold total_width fieldHexBits fieldHexWidths
  rw [List.map_map]
  rfl

lemma rawWidth_le_chunkBits (fs : List Field) (i : Nat) (hi : i < fs.length) :
    rawWidthAt fs i ≤ chunkBitsAt fs i := by
  rw [chunkBitsAt_eq fs i hi, compute_field_bit_width_hex_eq]
  have hb := ceil_div_bounds
    (compute_field_bit_width (fs.getD i defaultField).idx_hi (fs.getD i defaultField).idx_lo)
  unfold rawWidthAt
  omega

lemma foldl_sub_eq (l : List Int) (t : Int) :
    l.foldl (fun top x => top - x) t = t - l.sum := by
  induction l generalizing t with
  | nil => simp
  | cons x l ih =>
      simp only [List.foldl_cons, List.sum_cons, ih]
      ring

lemma bit_slice_final_top_eq (ws : List Int) : bit_slice_final_top ws = 0 := by
  simp [bit_slice_final_top, foldl_sub_eq]

lemma join_specifiers_append (a b : String) (rest : List String) :
    join_specifiers ((a ++ b) :: rest) = a ++ join_specifiers (b :: rest) := by
  cases rest with
  | nil => simp [join_specifiers]
  | cons r rs => simp [join_specifiers, String.append_assoc]

lemma foldl_format_eq (ws : List Int) (acc : String) :
    ws.foldl (fun out length => out ++ "_%0" ++ toString length ++ "h") acc
      = join_specifiers (acc :: ws.map (fun w => "%0" ++ toString w ++ "h")) := by
  induction ws generalizing acc with
  | nil => simp [join_specifiers]
  | cons w ws ih =>
      simp only [List.foldl_cons, List.map_cons]
      rw [ih]
      have hsplit : ("_%0" : String) = "_" ++ "%0" := rfl
      have h1 : acc ++ "_%0" ++ toString w ++ "h"
          = (acc ++ "_") ++ ("%0" ++ toString w ++ "h") := by
        simp only [hsplit, String.append_assoc]
      rw [h1, join_specifiers_append]
      simp only [join_specifiers, String.append_assoc]

end Benchgen

namespace Benchgen

/-- Claim C1: for the module `adder` with fields `a(input,7,0)`, `b(input,7,0)`,
`sum(output,8,0)`, the pipeline derives hex widths `2, 2, 3`, total vector
width `32` (vector high index `31`), data slices `a=[27:20]`, `b=[19:12]`,
`sum=[8:0]`, format string `"%1h_%02h_%02h_%03h"`, and mismatch expression
`"sum != sum_e"`. -/
theorem claim_C1 :
    fieldHexWidths adderFields = [2, 2, 3] ∧
    total_width adderFields = 32 ∧
    Benchgen.vec_hi_idx adderFields = 31 ∧
    fieldSlices adderFields = [(27, 20), (19, 12), (8, 0)] ∧
    generate_vector_format_str (fieldHexWidths adderFields) = "%1h_%02h_%02h_%03h" ∧
    codegen_output_check_expr adderFields = "sum != sum_e" := by
  refine ⟨by decide, by decide, by decide, by decide, by decide, by decide⟩

/-- Claim C2: for every valid field list, the nibble-aligned chunks tile
`[0, total_width - 4)` with no gaps and no overlaps, in reverse declaration
order (adjacent chunks are contiguous, the last-declared field bottoms out at
`0`, the first-declared field tops out at `total_width - 4`, and any
later-declared chunk lies entirely below any earlier-declared one), and the
cursor of the planner equals `0` after the last field. -/
theorem claim_C2 (fs : List Field) (h : ValidFields fs) :
    (fieldSlices fs).length = fs.length ∧
    (∀ i, i + 1 < fs.length →
      sliceLoAt fs (i + 1) + chunkBitsAt fs (i + 1) = sliceLoAt fs i) ∧
    sliceLoAt fs (fs.length - 1) = 0 ∧
    sliceLoAt fs 0 + chunkBitsAt fs 0 = total_width fs - 4 ∧
    (∀ i j, i < j → j < fs.length →
      sliceLoAt fs j + chunkBitsAt fs j ≤ sliceLoAt fs i) ∧
    bit_slice_final_top (fieldHexWidths fs) = 0 := by
  obtain ⟨hne, hv⟩ := h
  have hlen : 0 < fs.length := List.length_pos.2 hne
  refine ⟨fieldSlices_length fs, ?_, ?_, ?_, ?_, bit_slice_final_top_eq _⟩
  · intro i hi
    rw [sliceLoAt_eq fs (i + 1) (by omega), sliceLoAt_eq fs i (by omega)]
    have hs := chunkSuffixSum_succ fs (i + 1) (by omega)
    omega
  · rw [sliceLoAt_eq fs (fs.length - 1) (by omega)]
    have heq : fs.length - 1 + 1 = fs.length := by omega
    rw [heq, chunkSuffixSum_length]
  · rw [sliceLoAt_eq fs 0 (by omega)]
    have hs := chunkSuffixSum_succ fs 0 (by omega)
    have hz := chunkSuffixSum_zero fs
    have htw := total_width_eq fs
    omega
  · intro i j hij hj
    rw [sliceLoAt_eq fs j (by omega), sliceLoAt_eq fs i (by omega)]
    have hs := chunkSuffixSum_succ fs j (by omega)
    have ha := chunkSuffixSum_anti fs hv (show i + 1 ≤ j by omega)
    omega

/-- Witness for C2 at the `adder` scenario. -/
theorem claim_C2_witness :
    ValidFields adderFields ∧
    ((fieldSlices adderFields).length = adderFields.length ∧
     (∀ i, i + 1 < adderFields.length →
       sliceLoAt adderFields (i + 1) + chunkBitsAt adderFields (i + 1)
         = sliceLoAt adderFields i) ∧
     sliceLoAt adderFields (adderFields.length - 1) = 0 ∧
     sliceLoAt adderFields 0 + chunkBitsAt adderFields 0 = total_width adderFields - 4 ∧
     (∀ i j, i < j → j < adderFields.length →
       sliceLoAt adderFields j + chunkBitsAt adderFields j ≤ sliceLoAt adderFields i) ∧
     bit_slice_final_top (fieldHexWidths adderFields) = 0) :=
  ⟨by decide, claim_C2 adderFields (by decide)⟩

/-- Claim C3: for every valid field list, every data slice satisfies
`slice_hi >= slice_lo >= 0` and `slice_hi < total_width - 4`, so no data
slice overlaps the 4-bit enable tag at the top of the packed vector. -/
theorem claim_C3 (fs : List Field) (h : ValidFields fs) :
    ∀ i, i < fs.length →
      0 ≤ sliceLoAt fs i ∧ sliceLoAt fs i ≤ sliceHiAt fs i ∧
      sliceHiAt fs i < total_width fs - 4 := by
  obtain ⟨hne, hv⟩ := h
  intro i hi
  rw [sliceLoAt_eq fs i hi, sliceHiAt_eq fs i hi]
  have h0 : 0 ≤ chunkSuffixSum fs (i + 1) := chunkSuffixSum_nonneg fs hv (i + 1)
  have hfmem : fs.getD i defaultField ∈ fs := by
    rw [List.getD_eq_getElem _ _ hi]
    exact List.getElem_mem hi
  have hw1 : 1 ≤ rawWidthAt fs i := by
    have := (hv _ hfmem).1
    unfold rawWidthAt compute_field_bit_width
    omega
  have hcb := rawWidth_le_chunkBits fs i hi
  have hs := chunkSuffixSum_succ fs i hi
  have ha := chunkSuffixSum_anti fs hv (show 0 ≤ i by omega)
  have hz := chunkSuffixSum_zero fs
  have htw := total_width_eq fs
  refine ⟨h0, by omega, by omega⟩

/-- Witness for C3 at the `adder` scenario. -/
theorem claim_C3_witness :
    ValidFields adderFields ∧
    (∀ i, i < adderFields.length →
      0 ≤ sliceLoAt adderFields i ∧
      sliceLoAt adderFields i ≤ sliceHiAt adderFields i ∧
      sliceHiAt adderFields i < total_width adderFields - 4) :=
  ⟨by decide, claim_C3 adderFields (by decide)⟩

/-- Claim C4: for every field list, the total packed-vector width equals `4`
(the enable tag) plus the sum of the chunk sizes of all fields, and the
vector high index computed by the program equals `total_width - 1`. -/
theorem claim_C4 (fs : List Field) :
    Benchgen.vec_hi_idx fs = total_width fs - 1 ∧
    total_width fs = 4 + (fs.map chunk_bits).sum := by
  have htw := total_width_eq fs
  unfold vec_hi_idx at *
  unfold total_width at *
  omega

/-- Claim C5: for every field with `bit_hi >= bit_lo >= 0` the width
calculator returns `bit_hi - bit_lo + 1`, and the hex-width calculator
returns `⌈raw_width / 4⌉` — `raw_width` rounded up to the next multiple of 4
then divided by 4, the minimum number of hex digits that can losslessly
represent the field (`raw_width <= 4 * hex_width < raw_width + 4`). -/
theorem claim_C5 (idx_hi idx_lo : Int) (h1 : idx_lo ≤ idx_hi) (h2 : 0 ≤ idx_lo) :
    compute_field_bit_width idx_hi idx_lo = idx_hi - idx_lo + 1 ∧
    compute_field_bit_width_hex idx_hi idx_lo = ⌈((idx_hi - idx_lo + 1 : Int) : ℚ) / 4⌉ ∧
    idx_hi - idx_lo + 1 ≤ 4 * compute_field_bit_width_hex idx_hi idx_lo ∧
    4 * compute_field_bit_width_hex idx_hi idx_lo < (idx_hi - idx_lo + 1) + 4 := by
  have hw : compute_field_bit_width idx_hi idx_lo = idx_hi - idx_lo + 1 := by
    unfold compute_field_bit_width
    ring
  have hb := ceil_div_bounds (compute_field_bit_width idx_hi idx_lo)
  have he := compute_field_bit_width_hex_eq idx_hi idx_lo
  refine ⟨hw, ?_, ?_, ?_⟩
  · rw [he, hw] at *
    exact ceil_div_four_eq_ceil _
  · omega
  · omega

/-- Witness for C5 at the 8-bit field `(7, 0)`. -/
theorem claim_C5_witness :
    (0 : Int) ≤ 7 ∧ (0 : Int) ≤ 0 ∧
    (compute_field_bit_width 7 0 = 7 - 0 + 1 ∧
     compute_field_bit_width_hex 7 0 = ⌈((7 - 0 + 1 : Int) : ℚ) / 4⌉ ∧
     (7 : Int) - 0 + 1 ≤ 4 * compute_field_bit_width_hex 7 0 ∧
     4 * compute_field_bit_width_hex 7 0 < ((7 : Int) - 0 + 1) + 4) :=
  ⟨by norm_num, by norm_num, claim_C5 7 0 (by norm_num) (by norm_num)⟩

/-- Claim C6: for every field list, the generated display format string is
the specifier list `%1h, %0W1h, %0W2h, ...` joined by underscores, and that
list has exactly `len(fields) + 1` hex conversion specifiers whose widths
match the hex digit counts of the fields in declaration order. -/
theorem claim_C6 (fs : List Field) :
    generate_vector_format_str (fieldHexWidths fs)
      = join_specifiers (format_specifiers (fieldHexWidths fs)) ∧
    (format_specifiers (fieldHexWidths fs)).length = fs.length + 1 := by
  constructor
  · unfold generate_vector_format_str format_specifiers
    exact foldl_format_eq _ "%1h"
  · simp [format_specifiers, fieldHexWidths]

/-- Claim C7 (code bug): with an output field declared before an input field,
`codegen_output_check_expr` emits a dangling `" || "` separator — the
separator is appended for every later field once a disjunct exists, not only
for output fields — so the result is not a well-formed OR-chain over the
output fields. -/
theorem claim_C7 :
    codegen_output_check_expr [⟨"sum", "output", 8, 0⟩, ⟨"a", "input", 7, 0⟩]
      = "sum != sum_e || " := by
  decide

/-- Counterexample for C8 as stated: `badGeometrySpec` contains a field with
`bit_hi < bit_lo`, yet the pipeline completes and produces output text — no
error of any kind is raised for invalid field geometry. -/
theorem claim_C8_counterexample :
    badGeometrySpec.parameters.any (fun f => decide (f.idx_hi < f.idx_lo)) = true ∧
    (benchgen_main badGeometrySpec).isSome = true := by
  constructor
  · decide
  · rfl

/-- Claim C8 (amended): an empty field list makes generation fail before any
output text is produced (the `max` over the empty name sequence raises), but
a field with `bit_hi < bit_lo` is not rejected — generation completes and
produces output text. -/
theorem claim_C8 :
    (∀ module_name : String, benchgen_main ⟨module_name, []⟩ = none) ∧
    (benchgen_main badGeometrySpec).isSome = true := by
  constructor
  · intro mn
    rfl
  · rfl

/-- Claim C9: generation is deterministic — equal parsed input documents
produce equal output text (the whole pipeline is a pure function). -/
theorem claim_C9 (j1 j2 : ModuleSpec) (h : j1 = j2) :
    benchgen_main j1 = benchgen_main j2 := by
  rw [h]

/-- Witness for C9 at the `adder` document. -/
theorem claim_C9_witness :
    adderSpec = adderSpec ∧ benchgen_main adderSpec = benchgen_main adderSpec :=
  ⟨rfl, claim_C9 adderSpec adderSpec rfl⟩

/-- Claim C10: for every field list whose fields all have `bit_hi >= bit_lo`,
the data slice of each field is exactly as wide as the raw width of the
field, sits at the bottom of its nibble-aligned chunk (its low index is the
low boundary of the chunk), and all padding bits of the chunk lie strictly
above the high index of the slice. -/
theorem claim_C10 (fs : List Field) (hv : ∀ f ∈ fs, f.idx_lo ≤ f.idx_hi) :
    ∀ i, i < fs.length →
      sliceHiAt fs i - sliceLoAt fs i + 1 = rawWidthAt fs i ∧
      sliceLoAt fs i = chunkSuffixSum fs (i + 1) ∧
      sliceHiAt fs i < sliceLoAt fs i + chunkBitsAt fs i := by
  intro i hi
  rw [sliceLoAt_eq fs i hi, sliceHiAt_eq fs i hi]
  have hcb := rawWidth_le_chunkBits fs i hi
  refine ⟨by ring, rfl, by omega⟩

/-- Witness for C10 at the `adder` scenario. -/
theorem claim_C10_witness :
    (∀ f ∈ adderFields, f.idx_lo ≤ f.idx_hi) ∧
    (∀ i, i < adderFields.length →
      sliceHiAt adderFields i - sliceLoAt adderFields i + 1 = rawWidthAt adderFields i ∧
      sliceLoAt adderFields i = chunkSuffixSum adderFields (i + 1) ∧
      sliceHiAt adderFields i < sliceLoAt adderFields i + chunkBitsAt adderFields i) :=
  ⟨by decide, claim_C10 adderFields (by decide)⟩

end Benchgen
